import Mathlib

/-!
Verification development for the qwen_service document-extraction service
(src/qwen_service/qwen_service.py).  The definitions below are a shallow
embedding of the source: the weight-reply interpretation block of the
`extract_weight` endpoint (regex brace-span search, `json.loads`, the
`weight` key lookup, the falsy check and the numeric coercion), the two
inference-client functions `call_qwen` and `call_qwen_weight`, and the two
endpoint orchestrators.  External collaborators (the PDF rasterizer and the
inference backend) are passed in as function parameters; Python exceptions
are modelled by `Option` and `Except`; JSON numbers and the extracted
weight are modelled as exact rationals.
-/

/-- Left curly brace character, written via its code point. -/
def lbrace : Char := Char.ofNat 123

/-- Right curly brace character, written via its code point. -/
def rbrace : Char := Char.ofNat 125

/-- JSON whitespace characters accepted between tokens by Python json. -/
def isJsonWs (c : Char) : Bool :=
  c = ' ' || c = Char.ofNat 9 || c = Char.ofNat 10 || c = Char.ofNat 13

/-- Skip JSON whitespace. -/
def skipWs (cs : List Char) : List Char := cs.dropWhile isJsonWs

/-- Model of the start of the regex search `\x7b[\s\S]*\x7d`: the suffix of
the text beginning at the first left brace, if any. -/
def dropToBrace : List Char → Option (List Char)
  | [] => none
  | c :: cs => if c = lbrace then some (c :: cs) else dropToBrace cs

/-- Model of the greedy end of the regex `\x7b[\s\S]*\x7d`: the prefix of
the text ending at the last right brace, if any. -/
def takeToLastClose : List Char → Option (List Char)
  | [] => none
  | c :: cs =>
    match takeToLastClose cs with
    | some u => some (c :: u)
    | none => if c = rbrace then some [c] else none

/-- Model of `re.search` with the greedy pattern used at qwen_service.py
line 327: the substring from the first left brace to the last right brace
strictly after it, or `none` when the pattern does not match. -/
def braceSpan (cs : List Char) : Option (List Char) :=
  match dropToBrace cs with
  | none => none
  | some t => takeToLastClose t

/-- Python JSON values as produced by `json.loads`: null, booleans, numbers
(modelled as exact rationals, without the NaN and Infinity extensions),
strings, arrays and objects (association lists in file order, so a later
duplicate key occurs later in the list, matching dict insertion order). -/
inductive Json where
  | null
  | bool (b : Bool)
  | num (q : ℚ)
  | str (s : List Char)
  | arr (elems : List Json)
  | obj (kvs : List (List Char × Json))

/-- Numeric value of a list of decimal digit characters. -/
def natVal (cs : List Char) : ℕ :=
  cs.foldl (fun a c => 10 * a + (c.toNat - 48)) 0

/-- Characters that can occur inside a JSON number token. -/
def isNumChar (c : Char) : Bool :=
  c.isDigit || c = '.' || c = '-' || c = '+' || c = 'e' || c = 'E'

/-- Optional exponent suffix of a JSON number token; fails unless the
whole remaining token is a well-formed exponent (or empty). -/
def jsonExpPart (q : ℚ) : List Char → Option ℚ
  | [] => some q
  | c :: r =>
    if c = 'e' || c = 'E' then
      let signed : Bool × List Char :=
        match r with
        | '+' :: rr => (false, rr)
        | '-' :: rr => (true, rr)
        | _ => (false, r)
      let eDig := signed.2.takeWhile Char.isDigit
      if eDig = [] then none
      else if signed.2.dropWhile Char.isDigit ≠ [] then none
      else if signed.1 then some (q / (10 : ℚ) ^ natVal eDig)
      else some (q * (10 : ℚ) ^ natVal eDig)
    else none

/-- Value of a maximal JSON number token (sign, integer part with no
leading zero, optional fraction, optional exponent); `none` when the token
violates the JSON number grammar. -/
def jsonNumVal (cs : List Char) : Option ℚ :=
  let body : List Char :=
    match cs with
    | '-' :: r => r
    | _ => cs
  let neg : Bool :=
    match cs with
    | '-' :: _ => true
    | _ => false
  let intDig := body.takeWhile Char.isDigit
  let r1 := body.dropWhile Char.isDigit
  if intDig = [] then none
  else if intDig.length ≠ 1 ∧ intDig.head? = some '0' then none
  else
    let ip : ℚ := (natVal intDig : ℕ)
    let sgn : ℚ → ℚ := fun q => if neg then -q else q
    match r1 with
    | '.' :: r2 =>
      let fDig := r2.takeWhile Char.isDigit
      if fDig = [] then none
      else
        jsonExpPart (sgn (ip + (natVal fDig : ℚ) / (10 : ℚ) ^ fDig.length))
          (r2.dropWhile Char.isDigit)
    | _ => jsonExpPart (sgn ip) r1

/-- Value of a hexadecimal digit character. -/
def hexVal (c : Char) : Option ℕ :=
  if '0' ≤ c ∧ c ≤ '9' then some (c.toNat - 48)
  else if 'a' ≤ c ∧ c ≤ 'f' then some (c.toNat - 87)
  else if 'A' ≤ c ∧ c ≤ 'F' then some (c.toNat - 55)
  else none

/-- Single-character JSON string escapes. -/
def escChar (c : Char) : Option Char :=
  if c = '"' then some '"'
  else if c = '\\' then some '\\'
  else if c = '/' then some '/'
  else if c = 'b' then some (Char.ofNat 8)
  else if c = 'f' then some (Char.ofNat 12)
  else if c = 'n' then some (Char.ofNat 10)
  else if c = 'r' then some (Char.ofNat 13)
  else if c = 't' then some (Char.ofNat 9)
  else none

/-- Body of a JSON string after the opening quote, in Python json strict
mode: raw control characters are rejected, escapes are decoded (the
non-surrogate part of backslash-u escapes), and the scan stops at the
closing quote, returning the decoded characters and the rest of the input. -/
def parseStringBody : List Char → Option (List Char × List Char)
  | [] => none
  | c :: rest =>
    if c = '"' then some ([], rest)
    else if c = '\\' then
      match rest with
      | [] => none
      | e :: rest2 =>
        if e = 'u' then
          match rest2 with
          | a :: b :: c2 :: d :: rest3 =>
            match hexVal a, hexVal b, hexVal c2, hexVal d with
            | some ha, some hb, some hc, some hd =>
              match parseStringBody rest3 with
              | some (s, r) =>
                some (Char.ofNat (((ha * 16 + hb) * 16 + hc) * 16 + hd) :: s, r)
              | none => none
            | _, _, _, _ => none
          | _ => none
        else
          match escChar e, parseStringBody rest2 with
          | some ec, some (s, r) => some (ec :: s, r)
          | _, _ => none
    else if c.toNat < 32 then none
    else
      match parseStringBody rest with
      | some (s, r) => some (c :: s, r)
      | none => none

/-- Continuation of the value scanner after a leading left brace, with
the member scanner for the enclosing fuel stage passed in: an immediate
right brace gives the empty object, anything else is delegated to the
member scanner. -/
def parseObjTail (pm : List Char → Option (List (List Char × Json) × List Char))
    (rest : List Char) : Option (Json × List Char) :=
  match skipWs rest with
  | c2 :: r2 =>
    if c2 = rbrace then some (Json.obj [], r2)
    else
      match pm rest with
      | some (kvs, r) => some (Json.obj kvs, r)
      | none => none
  | [] => none

/-- Continuation of the value scanner after a leading left bracket. -/
def parseArrTail (pi : List Char → Option (List Json × List Char))
    (rest : List Char) : Option (Json × List Char) :=
  match skipWs rest with
  | c2 :: r2 =>
    if c2 = ']' then some (Json.arr [], r2)
    else
      match pi rest with
      | some (vs, r) => some (Json.arr vs, r)
      | none => none
  | [] => none

/-- Continuation of the value scanner after an opening quote. -/
def parseStrTail (rest : List Char) : Option (Json × List Char) :=
  match parseStringBody rest with
  | some (s, r) => some (Json.str s, r)
  | none => none

/-- Continuation of the value scanner after the letter n, expecting null. -/
def parseNullTail (rest : List Char) : Option (Json × List Char) :=
  match rest with
  | 'u' :: 'l' :: 'l' :: r => some (Json.null, r)
  | _ => none

/-- Continuation of the value scanner after the letter t, expecting true. -/
def parseTrueTail (rest : List Char) : Option (Json × List Char) :=
  match rest with
  | 'r' :: 'u' :: 'e' :: r => some (Json.bool true, r)
  | _ => none

/-- Continuation of the value scanner after the letter f, expecting false. -/
def parseFalseTail (rest : List Char) : Option (Json × List Char) :=
  match rest with
  | 'a' :: 'l' :: 's' :: 'e' :: r => some (Json.bool false, r)
  | _ => none

/-- Continuation of the value scanner at a digit or minus sign: the
maximal number token is taken and evaluated against the JSON number
grammar, exactly as the Python scanner matches its number regex. -/
def parseNumTail (c : Char) (rest : List Char) : Option (Json × List Char) :=
  match jsonNumVal ((c :: rest).takeWhile isNumChar) with
  | some q => some (Json.num q, (c :: rest).dropWhile isNumChar)
  | none => none

/-- Continuation of the member scanner after one key-value pair, with the
member scanner for the same fuel stage passed in: a comma continues the
member list, a right brace closes the object. -/
def parseMemberSep (pm : List Char → Option (List (List Char × Json) × List Char))
    (key : List Char) (v : Json) (r3 : List Char) :
    Option (List (List Char × Json) × List Char) :=
  match skipWs r3 with
  | c :: r4 =>
    if c = ',' then
      match pm r4 with
      | some (kvs, r5) => some ((key, v) :: kvs, r5)
      | none => none
    else if c = rbrace then some ([(key, v)], r4)
    else none
  | [] => none

/-- Continuation of the item scanner after one array element. -/
def parseItemSep (pi : List Char → Option (List Json × List Char))
    (v : Json) (r1 : List Char) : Option (List Json × List Char) :=
  match skipWs r1 with
  | c :: r2 =>
    if c = ',' then
      match pi r2 with
      | some (vs, r3) => some (v :: vs, r3)
      | none => none
    else if c = ']' then some ([v], r2)
    else none
  | [] => none

mutual

/-- Fuel-indexed recursive-descent model of the Python json scanner for a
single value: skips whitespace, dispatches on the first character, and
returns the parsed value together with the unconsumed rest of the input. -/
def parseValue : ℕ → List Char → Option (Json × List Char)
  | 0, _ => none
  | Nat.succ fuel, cs =>
    match skipWs cs with
    | [] => none
    | c :: rest =>
      if c = lbrace then parseObjTail (parseMembers fuel) rest
      else if c = '[' then parseArrTail (parseItems fuel) rest
      else if c = '"' then parseStrTail rest
      else if c = 'n' then parseNullTail rest
      else if c = 't' then parseTrueTail rest
      else if c = 'f' then parseFalseTail rest
      else if c.isDigit || c = '-' then parseNumTail c rest
      else none

/-- Members of a nonempty JSON object, after the opening brace: a
comma-separated list of quoted keys, colons and values, terminated by the
closing brace. -/
def parseMembers : ℕ → List Char → Option (List (List Char × Json) × List Char)
  | 0, _ => none
  | Nat.succ fuel, cs =>
    match skipWs cs with
    | '"' :: r0 =>
      match parseStringBody r0 with
      | some (key, r1) =>
        match skipWs r1 with
        | ':' :: r2 =>
          match parseValue fuel r2 with
          | some (v, r3) => parseMemberSep (parseMembers fuel) key v r3
          | none => none
        | _ => none
      | none => none
    | _ => none

/-- Items of a nonempty JSON array, after the opening bracket. -/
def parseItems : ℕ → List Char → Option (List Json × List Char)
  | 0, _ => none
  | Nat.succ fuel, cs =>
    match parseValue fuel cs with
    | some (v, r1) => parseItemSep (parseItems fuel) v r1
    | none => none

end

/-- Model of Python `json.loads` on a character list: parse one value with
ample fuel, then require that only whitespace remains; any parse error is
`none` (the `json.JSONDecodeError` the source catches). -/
def json_loads (cs : List Char) : Option Json :=
  match parseValue (2 * cs.length + 2) cs with
  | some (v, rest) => if skipWs rest = [] then some v else none
  | none => none

/-- The character filter at qwen_service.py line 336: keep decimal digits
and the period, exactly `c.isdigit() or c == chr(46)` for ASCII text. -/
def isDigitOrDot (c : Char) : Bool :=
  c.isDigit || c = '.'

/-- Model of Python `float(s)` restricted to strings of decimal digits and
periods (the only strings the source applies it to, after filtering):
accepted iff the string holds at least one digit and at most one period,
with the usual decimal value; everything else raises `ValueError`, here
`none`. -/
def pyFloatDigitsDots (cs : List Char) : Option ℚ :=
  if ¬ cs.all isDigitOrDot then none
  else if cs.all (fun c => c = '.') then none
  else
    match (cs.filter (fun c => c = '.')).length with
    | 0 => some ((natVal cs : ℕ) : ℚ)
    | 1 =>
      let ip := cs.takeWhile (fun c => c ≠ '.')
      let fp := (cs.dropWhile (fun c => c ≠ '.')).tail
      some ((natVal ip : ℚ) + (natVal fp : ℚ) / (10 : ℚ) ^ fp.length)
    | _ => none

/-- Model of `weight_data.get` on the parsed dict for the key `weight`:
the value of the last binding of that key (a later duplicate key in the
JSON text overwrites an earlier one in a Python dict), or `none`. -/
def lookupWeight : List (List Char × Json) → Option Json
  | [] => none
  | kv :: rest =>
    match lookupWeight rest with
    | some v => some v
    | none => if kv.1 = "weight".data then some kv.2 else none

/-- The falsy check and numeric coercion at qwen_service.py lines 333-340:
a falsy value (null or absent, False, zero, the empty string, an empty
container) yields `none`; a string is filtered to digits and periods and
fed to `float`; any other truthy value goes through `float` directly,
which succeeds on numbers and True and raises (collapsed to `none`) on
containers. -/
def coerceWeight : Json → Option ℚ
  | Json.null => none
  | Json.bool b => if b then some 1 else none
  | Json.num q => if q = 0 then none else some q
  | Json.str s =>
    if s = [] then none
    else pyFloatDigitsDots (s.filter isDigitOrDot)
  | Json.arr _ => none
  | Json.obj _ => none

/-- Reading the weight out of the parsed JSON value: `.get` requires a
dict (on any other value the attribute access raises, which the inner
`except` collapses to `none`), then the falsy check and coercion run. -/
def weightFromJson : Json → Option ℚ
  | Json.obj kvs =>
    match lookupWeight kvs with
    | some v => coerceWeight v
    | none => none
  | _ => none

/-- Interpretation of a brace span: `json.loads` then the weight read,
with every parse error collapsed to `none` by the inner `except`. -/
def interpretSpan (span : List Char) : Option ℚ :=
  match json_loads span with
  | none => none
  | some j => weightFromJson j

/-- The whole reply-interpretation block of `extract_weight`
(qwen_service.py lines 325-345): greedy brace-span search, JSON parse,
weight lookup and coercion; every failure path yields `none`, the Python
`weight_value = None`. -/
def extract_weight_value (reply : List Char) : Option ℚ :=
  match braceSpan reply with
  | none => none
  | some span => interpretSpan span
/-- The invoice-extraction instruction text, verbatim from the source. -/
def PROMPT : String :=
  "\nYou are an expert invoice data extraction engine.\n\nYour task is to read the provided invoice image or PDF and extract structured data into STRICT JSON format.\n\nFollow these rules carefully:\n\n-------------------------\nGENERAL EXTRACTION RULES\n-------------------------\n\n1. Extract only factual data visible in the invoice.\n2. If a field is missing, unclear, or not present, return an empty string \"\".\n3. Do NOT hallucinate or guess missing values.\n4. Preserve numbers exactly as written (no currency symbols).\n5. Convert all numeric values to plain strings (no commas).\n   Example: \"1,23,456.00\" → \"123456.00\"\n6. Dates should be returned exactly as seen (do not reformat).\n7. Ignore stamps, signatures, watermarks, and handwritten marks unless they contain key invoice data.\n8. Extract all line items in the item table.\n9. If multiple taxes are shown per item, map them correctly.\n10. Return ONLY valid JSON. No explanations. No extra text.\n\n-------------------------\nFIELD EXTRACTION LOGIC\n-------------------------\n\ninvoiceNumber:\n- Look for labels like: Invoice No, Invoice Number, Bill No, Tax Invoice No\n\ninvoiceDate:\n- Look for: Invoice Date, Date, Bill Date\n\npoNumber:\n- Look for: PO Number, Purchase Order, Buyer Order No\n\nsupplierName:\n- Extract seller/company issuing the invoice\n\nbillTo:\n- Extract buyer/customer company name\n\nbillToAddress:\n- Full buyer address block\n\nbillToGst:\n- Extract GSTIN / VAT / Tax ID of buyer\n\n-------------------------\nITEM TABLE EXTRACTION\n-------------------------\n\nFor each row in the item table extract:\n\nitemName:\n- Description of goods/services\n\nquantity:\n- Quantity or Qty column\n\nunitPrice:\n- Rate / Unit Price\n\namount:\n- Line total amount\n\nhsnSac:\n- HSN/SAC/HS Code\n\ntaxableValue:\n- Taxable amount per item (if present)\n\ncgstPercent / cgstAmount:\nsgstPercent / sgstAmount:\n\n- Extract from item-level tax columns\n- If taxes only appear in summary, leave item tax empty\n\n-------------------------\nTOTALS EXTRACTION\n-------------------------\n\nsubtotal:\n- Taxable total or subtotal\n\ncgst:\nsgst:\n- Total CGST/SGST from summary\n\nroundOff:\n- Round off value\n\ntaxAmount:\n- Total tax amount\n\ntotalAmount:\n- Final invoice total\n\ntotalAmountInWords:\n- Amount in words section\n\n-------------------------\nCRITICAL OUTPUT RULES\n-------------------------\n\n1. Output must be STRICT JSON\n2. Use exactly this schema\n3. No markdown\n4. No comments\n5. No extra keys\n6. Always include all keys\n\n-------------------------\nOUTPUT JSON\n-------------------------\n\n\x7b\n\"invoiceNumber\":\"\",\n\"invoiceDate\":\"\",\n\"poNumber\":\"\",\n\"supplierName\":\"\",\n\"billTo\":\"\",\n\"billToAddress\":\"\",\n\"billToGst\":\"\",\n\n\"items\":[\n\x7b\n\"itemName\":\"\",\n\"quantity\":\"\",\n\"unitPrice\":\"\",\n\"amount\":\"\",\n\"hsnSac\":\"\",\n\"taxableValue\":\"\",\n\"cgstPercent\":\"\",\n\"cgstAmount\":\"\",\n\"sgstPercent\":\"\",\n\"sgstAmount\":\"\"\n\x7d\n],\n\n\"subtotal\":\"\",\n\"cgst\":\"\",\n\"sgst\":\"\",\n\"roundOff\":\"\",\n\"taxAmount\":\"\",\n\"totalAmount\":\"\",\n\"totalAmountInWords\":\"\"\n\x7d\n\nReturn ONLY this JSON.\n\n"

/-- The weight-extraction instruction text, verbatim from the source. -/
def WEIGHT_PROMPT : String :=
  "\nYou are a professional weight slip data extraction engine.\n\nExtract the weight value from the weight slip image and return ONLY valid JSON.\n\nJSON FORMAT:\n\x7b\n \"weight\": \"\"\n\x7d\n\nSTRICT RULES:\n- Extract the weight value in kilograms (kg) or grams (g)\n- Weight may appear as \"Weight:\", \"Net Weight:\", \"Gross Weight:\", \"Wt:\", \"Weight (kg):\", \"Weight (g):\", or similar\n- Convert grams to kilograms if needed (divide by 1000)\n- Return only the numeric weight value as a number (not as string with units)\n- If weight is not found, return null\n- Do NOT add explanation\n- Return JSON only\n"

/-- The fixed model name from the CONFIG section of the source. -/
def MODEL_NAME : String := "qwen-vl-max"

/-- A decoded page image.  The source saves the PIL image as PNG and
base64-encodes the bytes; the encoding pipeline is modelled by carrying
the base64 text of the PNG rendering as the image datum. -/
structure PILImage where
  pngBase64 : String

/-- The data URL built from the PNG base64 text (qwen_service.py line 210). -/
def dataUrl (img : PILImage) : String :=
  "data:image/png;base64," ++ img.pngBase64

/-- One part of a multimodal chat message: an image URL or a text block. -/
inductive ContentPart where
  | image_url (url : String)
  | text (t : String)

/-- A chat message with a role and content parts. -/
structure ChatMessage where
  role : String
  content : List ContentPart

/-- A request to `client.chat.completions.create`, with the fields the
source sets: model, messages, temperature and the token limit. -/
structure ChatRequest where
  model : String
  messages : List ChatMessage
  temperature : ℚ
  max_tokens : ℕ

/-- The single request `call_qwen` builds (qwen_service.py lines 212-233):
one user message holding the image data URL and the invoice instruction,
temperature zero, token limit 1200. -/
def qwenRequest (img : PILImage) : ChatRequest :=
  ⟨MODEL_NAME,
    [⟨"user", [ContentPart.image_url (dataUrl img), ContentPart.text PROMPT]⟩],
    0, 1200⟩

/-- The single request `call_qwen_weight` builds (lines 247-268): same
shape with the weight instruction and token limit 200. -/
def qwenWeightRequest (img : PILImage) : ChatRequest :=
  ⟨MODEL_NAME,
    [⟨"user", [ContentPart.image_url (dataUrl img), ContentPart.text WEIGHT_PROMPT]⟩],
    0, 200⟩

/-- Model of `call_qwen`: issue the one request to the backend and return
its reply together with the list of requests issued (exactly one; the
source performs no retry).  A backend exception is `Except.error`. -/
def call_qwen (backend : ChatRequest → Except Unit String) (image : PILImage) :
    Except Unit String × List ChatRequest :=
  (backend (qwenRequest image), [qwenRequest image])

/-- Model of `call_qwen_weight`: one request, no retry. -/
def call_qwen_weight (backend : ChatRequest → Except Unit String) (image : PILImage) :
    Except Unit String × List ChatRequest :=
  (backend (qwenWeightRequest image), [qwenWeightRequest image])

/-- Body of a successful endpoint response: the literal dicts returned at
qwen_service.py lines 294-297 and 347-350, with their success flag. -/
inductive ResponseBody where
  | invoice (success : Bool) (invoice_json : String)
  | weight (success : Bool) (weight : Option ℚ)

/-- An endpoint outcome: a JSON body, or the `HTTPException` raised in the
outer exception handler with its status code and detail message. -/
inductive EndpointResult where
  | ok (body : ResponseBody)
  | httpError (status : ℕ) (detail : String)

/-- The `/ocr` endpoint `extract_invoice` (lines 274-303).  The rasterizer
`convert_from_bytes` is passed in as a function of the PDF bytes and the
dpi; an empty page list triggers the raised exception, caught by the outer
handler as a 500 with detail Qwen OCR failed, as does a backend failure.
On success the raw reply text is returned verbatim under `success = true`.
The second component lists the backend requests issued. -/
def extract_invoice (convert : List ℕ → ℕ → List PILImage)
    (backend : ChatRequest → Except Unit String) (pdf : List ℕ) :
    EndpointResult × List ChatRequest :=
  match convert pdf 300 with
  | [] => (EndpointResult.httpError 500 "Qwen OCR failed", [])
  | page :: _ =>
    match call_qwen backend page with
    | (Except.ok t, reqs) => (EndpointResult.ok (ResponseBody.invoice true t), reqs)
    | (Except.error _, reqs) => (EndpointResult.httpError 500 "Qwen OCR failed", reqs)

/-- The `/extract-weight` endpoint `extract_weight` (lines 305-356): same
orchestration with the weight call, then the reply-interpretation block;
interpretation failures are not errors, they yield a success body with a
null weight.  Rasterization and backend failures map to a 500 with detail
Weight extraction failed. -/
def extract_weight (convert : List ℕ → ℕ → List PILImage)
    (backend : ChatRequest → Except Unit String) (pdf : List ℕ) :
    EndpointResult × List ChatRequest :=
  match convert pdf 300 with
  | [] => (EndpointResult.httpError 500 "Weight extraction failed", [])
  | page :: _ =>
    match call_qwen_weight backend page with
    | (Except.ok t, reqs) =>
      (EndpointResult.ok (ResponseBody.weight true (extract_weight_value t.data)), reqs)
    | (Except.error _, reqs) =>
      (EndpointResult.httpError 500 "Weight extraction failed", reqs)

/-- The empty string is rejected by the float model, like Python float. -/
theorem pyFloatDigitsDots_nil : pyFloatDigitsDots [] = none := rfl

/-- Reply interpretation when the parsed object binds `weight` to a string:
the result is exactly the filtered string fed to the float model.  The
falsy branch for the empty string agrees with the float model because the
empty string is rejected there as well. -/
theorem extract_weight_value_str (reply span : List Char)
    (kvs : List (List Char × Json)) (v : List Char)
    (hs : braceSpan reply = some span)
    (hj : json_loads span = some (Json.obj kvs))
    (hw : lookupWeight kvs = some (Json.str v)) :
    extract_weight_value reply = pyFloatDigitsDots (v.filter isDigitOrDot) := by
  simp only [extract_weight_value, hs, interpretSpan, hj, weightFromJson, hw, coerceWeight]
  by_cases hv : v = []
  · subst hv
    simp [pyFloatDigitsDots_nil]
  · simp [hv]

/-- Every value the float model accepts is nonnegative: the accepted
strings hold only digits and periods, so the value is built from natural
numbers. -/
theorem pyFloatDigitsDots_nonneg (cs : List Char) (q : ℚ)
    (h : pyFloatDigitsDots cs = some q) : 0 ≤ q := by
  unfold pyFloatDigitsDots at h
  split at h
  · exact absurd h (by simp)
  · split at h
    · exact absurd h (by simp)
    · split at h
      · cases h
        positivity
      · cases h
        positivity
      · exact absurd h (by simp)

/-- C1: for every backend reply text, the invoice extraction endpoint does
not parse, validate or transform the reply: its success result is the
envelope with the success flag true and the invoice_json field equal to
the raw backend reply verbatim. -/
theorem C1_invoice_passthrough
    (convert : List ℕ → ℕ → List PILImage)
    (backend : ChatRequest → Except Unit String)
    (pdf : List ℕ) (page : PILImage) (rest : List PILImage) (text : String)
    (hconv : convert pdf 300 = page :: rest)
    (hb : backend (qwenRequest page) = Except.ok text) :
    extract_invoice convert backend pdf =
      (EndpointResult.ok (ResponseBody.invoice true text), [qwenRequest page]) := by
  simp only [extract_invoice, hconv, call_qwen, hb]

/-- Witness for C1 at a concrete rasterizer, backend and reply. -/
theorem C1_invoice_passthrough_witness :
    extract_invoice (fun _ _ => [⟨"imgdata"⟩]) (fun _ => Except.ok "RAW REPLY") [] =
      (EndpointResult.ok (ResponseBody.invoice true "RAW REPLY"),
        [qwenRequest ⟨"imgdata"⟩]) :=
  C1_invoice_passthrough (fun _ _ => [⟨"imgdata"⟩]) (fun _ => Except.ok "RAW REPLY")
    [] ⟨"imgdata"⟩ [] "RAW REPLY" rfl rfl

/-- C2: the weight interpretation is total with the two terminal outcomes
Found (`some`) and NotFound (`none`) — every Python exception inside the
block is modelled as, and collapses to, `none` — and in particular a brace
span that is not valid JSON yields NotFound. -/
theorem C2_weight_interpretation_total (reply : List Char) :
    ((∃ v, extract_weight_value reply = some v) ∨ extract_weight_value reply = none) ∧
    (∀ span, braceSpan reply = some span → json_loads span = none →
      extract_weight_value reply = none) := by
  constructor
  · cases h : extract_weight_value reply with
    | none => exact Or.inr rfl
    | some v => exact Or.inl ⟨v, rfl⟩
  · intro span hs hj
    simp only [extract_weight_value, hs, interpretSpan, hj]

/-- Witness for C2 at a reply whose brace span has a trailing comma, hence
is not valid JSON. -/
theorem C2_weight_interpretation_total_witness :
    extract_weight_value "\x7b\"weight\": 1,\x7d".data = none :=
  (C2_weight_interpretation_total "\x7b\"weight\": 1,\x7d".data).2
    "\x7b\"weight\": 1,\x7d".data rfl rfl

/-- C3 counterexample: the reply holds the well-formed JSON object
consisting of all characters but the final right brace — the first
well-formed JSON object embedded in the text, and its parse carries
weight 2 — yet the interpreter returns NotFound, because it works on the
greedy brace span, which is the whole text and is not valid JSON. -/
theorem C3_counterexample :
    json_loads "\x7b\"weight\": 2\x7d".data =
      some (Json.obj [("weight".data, Json.num 2)]) ∧
    weightFromJson (Json.obj [("weight".data, Json.num 2)]) = some 2 ∧
    extract_weight_value "\x7b\"weight\": 2\x7d\x7d".data = none :=
  ⟨rfl, rfl, rfl⟩

/-- C3 amended: the interpreter extracts the greedy brace span — from the
first left brace to the last right brace — and parses that span; whenever
the span parses, the result is the weight read off the parsed value. -/
theorem C3_amended_greedy_span (reply span : List Char) (j : Json)
    (hs : braceSpan reply = some span)
    (hj : json_loads span = some j) :
    extract_weight_value reply = weightFromJson j := by
  simp only [extract_weight_value, hs, interpretSpan, hj]

/-- Witness for the amended C3 at E2E scenario A. -/
theorem C3_amended_greedy_span_witness :
    extract_weight_value "Sure! Here is the result:\n\x7b\"weight\": \"2.35\"\x7d".data =
      weightFromJson (Json.obj [("weight".data, Json.str "2.35".data)]) :=
  C3_amended_greedy_span "Sure! Here is the result:\n\x7b\"weight\": \"2.35\"\x7d".data
    "\x7b\"weight\": \"2.35\"\x7d".data
    (Json.obj [("weight".data, Json.str "2.35".data)]) rfl rfl

/-- C5: a parsed reply object whose weight key is absent or falsy — the
empty string, the number zero, or null — gives NotFound. -/
theorem C5_falsy_collapse (reply span : List Char)
    (kvs : List (List Char × Json))
    (hs : braceSpan reply = some span)
    (hj : json_loads span = some (Json.obj kvs))
    (hw : lookupWeight kvs = none ∨ lookupWeight kvs = some (Json.str []) ∨
      lookupWeight kvs = some (Json.num 0) ∨ lookupWeight kvs = some Json.null) :
    extract_weight_value reply = none := by
  simp only [extract_weight_value, hs, interpretSpan, hj, weightFromJson]
  rcases hw with h | h | h | h <;> rw [h] <;> simp [coerceWeight]

/-- Witness for C5 at E2E scenario B, a null weight. -/
theorem C5_falsy_collapse_witness :
    extract_weight_value "\x7b\"weight\": null\x7d".data = none :=
  C5_falsy_collapse "\x7b\"weight\": null\x7d".data "\x7b\"weight\": null\x7d".data
    [("weight".data, Json.null)] rfl rfl (Or.inr (Or.inr (Or.inr rfl)))

/-- C6: a textual weight value is filtered down to decimal digits and
periods and fed to float, with no gram-to-kilogram conversion: the string
12.5 kg yields 12.5 and the string 1500 g yields 1500. -/
theorem C6_unit_stripping :
    (∀ reply span kvs v,
      braceSpan reply = some span →
      json_loads span = some (Json.obj kvs) →
      lookupWeight kvs = some (Json.str v) →
      extract_weight_value reply = pyFloatDigitsDots (v.filter isDigitOrDot)) ∧
    extract_weight_value "\x7b\"weight\": \"12.5 kg\"\x7d".data = some (25 / 2 : ℚ) ∧
    extract_weight_value "\x7b\"weight\": \"1500 g\"\x7d".data = some 1500 := by
  refine ⟨fun reply span kvs v hs hj hw => extract_weight_value_str reply span kvs v hs hj hw, ?_, rfl⟩
  have h : extract_weight_value "\x7b\"weight\": \"12.5 kg\"\x7d".data =
      some ((12 : ℚ) + (5 : ℚ) / (10 : ℚ) ^ (1 : ℕ)) := rfl
  rw [h]
  norm_num

/-- Witness for C6, applying the universal part at the 12.5 kg reply. -/
theorem C6_unit_stripping_witness :
    extract_weight_value "\x7b\"weight\": \"12.5 kg\"\x7d".data =
      pyFloatDigitsDots ("12.5 kg".data.filter isDigitOrDot) :=
  C6_unit_stripping.1 "\x7b\"weight\": \"12.5 kg\"\x7d".data
    "\x7b\"weight\": \"12.5 kg\"\x7d".data
    [("weight".data, Json.str "12.5 kg".data)] "12.5 kg".data rfl rfl rfl

/-- C7: an empty page sequence from the rasterizer makes each endpoint
return its fixed 500 service error — detail Qwen OCR failed for the
invoice endpoint, Weight extraction failed for the weight endpoint — and
no backend request is issued. -/
theorem C7_empty_pages_no_backend_call
    (convert : List ℕ → ℕ → List PILImage)
    (backend : ChatRequest → Except Unit String) (pdf : List ℕ)
    (h : convert pdf 300 = []) :
    extract_invoice convert backend pdf =
      (EndpointResult.httpError 500 "Qwen OCR failed", []) ∧
    extract_weight convert backend pdf =
      (EndpointResult.httpError 500 "Weight extraction failed", []) := by
  constructor
  · simp only [extract_invoice, h]
  · simp only [extract_weight, h]

/-- Witness for C7 at a rasterizer that yields no pages. -/
theorem C7_empty_pages_no_backend_call_witness :
    extract_invoice (fun _ _ => []) (fun _ => Except.ok "x") [] =
      (EndpointResult.httpError 500 "Qwen OCR failed", []) ∧
    extract_weight (fun _ _ => []) (fun _ => Except.ok "x") [] =
      (EndpointResult.httpError 500 "Weight extraction failed", []) :=
  C7_empty_pages_no_backend_call (fun _ _ => []) (fun _ => Except.ok "x") [] rfl

/-- C8: each inference call issues exactly one request, with temperature
zero and token limit 1200 on the invoice path and 200 on the weight path;
no retry occurs, the trace is a one-element list. -/
theorem C8_fixed_request_parameters
    (backend : ChatRequest → Except Unit String) (img : PILImage) :
    (call_qwen backend img).2 = [qwenRequest img] ∧
    (call_qwen backend img).2.length = 1 ∧
    (qwenRequest img).temperature = 0 ∧
    (qwenRequest img).max_tokens = 1200 ∧
    (call_qwen_weight backend img).2 = [qwenWeightRequest img] ∧
    (call_qwen_weight backend img).2.length = 1 ∧
    (qwenWeightRequest img).temperature = 0 ∧
    (qwenWeightRequest img).max_tokens = 200 :=
  ⟨rfl, rfl, rfl, rfl, rfl, rfl, rfl, rfl⟩

/-- C9: a textual weight that yields Found is nonnegative, because the
character filter removes a minus sign before parsing — the string -12.5
yields 12.5 — while a weight supplied as a JSON number is coerced directly
and can stay negative. -/
theorem C9_string_weight_nonneg :
    (∀ reply span kvs v q,
      braceSpan reply = some span →
      json_loads span = some (Json.obj kvs) →
      lookupWeight kvs = some (Json.str v) →
      extract_weight_value reply = some q → 0 ≤ q) ∧
    extract_weight_value "\x7b\"weight\": \"-12.5\"\x7d".data = some (25 / 2 : ℚ) ∧
    extract_weight_value "\x7b\"weight\": -3\x7d".data = some (-3 : ℚ) := by
  refine ⟨?_, ?_, rfl⟩
  · intro reply span kvs v q hs hj hw hq
    rw [extract_weight_value_str reply span kvs v hs hj hw] at hq
    exact pyFloatDigitsDots_nonneg _ q hq
  · have h : extract_weight_value "\x7b\"weight\": \"-12.5\"\x7d".data =
        some ((12 : ℚ) + (5 : ℚ) / (10 : ℚ) ^ (1 : ℕ)) := rfl
    rw [h]
    norm_num

/-- Witness for C9, applying the universal part at a concrete reply whose
string weight parses to 2.35. -/
theorem C9_string_weight_nonneg_witness :
    (0 : ℚ) ≤ 47 / 20 :=
  C9_string_weight_nonneg.1 "\x7b\"weight\": \"2.35\"\x7d".data
    "\x7b\"weight\": \"2.35\"\x7d".data
    [("weight".data, Json.str "2.35".data)] "2.35".data (47 / 20) rfl rfl rfl
    (by
      have h : extract_weight_value "\x7b\"weight\": \"2.35\"\x7d".data =
          some ((2 : ℚ) + (35 : ℚ) / (10 : ℚ) ^ (2 : ℕ)) := rfl
      rw [h]
      norm_num)

/-- A prefix free of left braces does not affect the brace search. -/
theorem dropToBrace_append (pre l : List Char) (h : ∀ c ∈ pre, c ≠ lbrace) :
    dropToBrace (pre ++ l) = dropToBrace l := by
  induction pre with
  | nil => rfl
  | cons a t ih =>
    simp only [List.cons_append, dropToBrace]
    rw [if_neg (h a (by simp))]
    exact ih (fun c hc => h c (by simp [hc]))

/-- The brace search stops at a leading left brace. -/
theorem dropToBrace_cons_self (l : List Char) :
    dropToBrace (lbrace :: l) = some (lbrace :: l) := by
  simp [dropToBrace]

/-- A text without right braces has no closing position. -/
theorem takeToLastClose_eq_none (ys : List Char) (h : ∀ c ∈ ys, c ≠ rbrace) :
    takeToLastClose ys = none := by
  induction ys with
  | nil => rfl
  | cons a t ih =>
    simp only [takeToLastClose, ih (fun c hc => h c (by simp [hc]))]
    rw [if_neg (h a (by simp))]

/-- A suffix without a closing position does not affect the last-close
truncation. -/
theorem takeToLastClose_append_of_none (xs ys : List Char)
    (h : takeToLastClose ys = none) :
    takeToLastClose (xs ++ ys) = takeToLastClose xs := by
  induction xs with
  | nil => simpa using h
  | cons a t ih => simp only [List.cons_append, takeToLastClose, List.append_eq, ih]

/-- A text ending in a right brace is kept whole by the last-close
truncation. -/
theorem takeToLastClose_snoc (xs : List Char) :
    takeToLastClose (xs ++ [rbrace]) = some (xs ++ [rbrace]) := by
  induction xs with
  | nil => simp [takeToLastClose]
  | cons a t ih => simp only [List.cons_append, takeToLastClose, List.append_eq, ih]

/-- The greedy brace span of a text made of brace-free prose, an
object-shaped segment from a left brace to a right brace, and prose free
of right braces, is exactly that segment. -/
theorem braceSpan_decomp (pre mid post : List Char)
    (hpre : ∀ c ∈ pre, c ≠ lbrace) (hpost : ∀ c ∈ post, c ≠ rbrace) :
    braceSpan (pre ++ (lbrace :: mid ++ [rbrace]) ++ post) =
      some (lbrace :: mid ++ [rbrace]) := by
  have h1 : pre ++ (lbrace :: mid ++ [rbrace]) ++ post =
      pre ++ (lbrace :: (mid ++ [rbrace] ++ post)) := by simp
  rw [h1]
  unfold braceSpan
  rw [dropToBrace_append pre _ hpre, dropToBrace_cons_self]
  show takeToLastClose (lbrace :: (mid ++ [rbrace] ++ post)) = _
  have h2 : lbrace :: (mid ++ [rbrace] ++ post) =
      ((lbrace :: mid) ++ [rbrace]) ++ post := by simp
  rw [h2, takeToLastClose_append_of_none _ post (takeToLastClose_eq_none post hpost),
    takeToLastClose_snoc]

/-- Inversion of the brace search: success exposes a brace-free prefix and
a suffix led by a left brace. -/
theorem dropToBrace_some (s t : List Char) (h : dropToBrace s = some t) :
    ∃ a t0, s = a ++ t ∧ t = lbrace :: t0 := by
  induction s with
  | nil => cases h
  | cons c cs ih =>
    by_cases hc : c = lbrace
    · subst hc
      rw [dropToBrace_cons_self] at h
      cases h
      exact ⟨[], cs, by simp, rfl⟩
    · simp only [dropToBrace] at h
      rw [if_neg hc] at h
      obtain ⟨a, t0, h1, h2⟩ := ih h
      exact ⟨c :: a, t0, by simp [h1], h2⟩

/-- Inversion of the last-close truncation: success splits the text at a
right brace ending the kept part. -/
theorem takeToLastClose_some (t : List Char) :
    ∀ u, takeToLastClose t = some u → ∃ d u0, t = u ++ d ∧ u = u0 ++ [rbrace] := by
  induction t with
  | nil => intro u h; cases h
  | cons c cs ih =>
    intro u h
    simp only [takeToLastClose] at h
    cases htc : takeToLastClose cs with
    | some u2 =>
      rw [htc] at h
      cases h
      obtain ⟨d, u0, h1, h2⟩ := ih u2 htc
      exact ⟨d, c :: u0, by simp [h1], by simp [h2]⟩
    | none =>
      rw [htc] at h
      by_cases hc : c = rbrace
      · subst hc
        rw [if_pos rfl] at h
        cases h
        exact ⟨cs, [], by simp, by simp⟩
      · rw [if_neg hc] at h
        cases h

/-- A successful greedy brace span exhibits a left brace followed later by
a right brace inside the reply. -/
theorem braceSpan_some_pair (s u : List Char) (h : braceSpan s = some u) :
    ∃ a b c, s = a ++ lbrace :: b ++ rbrace :: c := by
  unfold braceSpan at h
  cases hd : dropToBrace s with
  | none => rw [hd] at h; cases h
  | some t =>
    rw [hd] at h
    obtain ⟨a, t0, hs1, ht⟩ := dropToBrace_some s t hd
    obtain ⟨d, u0, ht2, hu⟩ := takeToLastClose_some t u h
    cases u0 with
    | nil =>
      exfalso
      rw [hu] at ht2
      rw [ht2] at ht
      simp at ht
      exact absurd ht.1 (by decide)
    | cons x u1 =>
      rw [hu] at ht2
      rw [ht2] at ht
      have hx : x = lbrace := by
        have := ht
        simp at this
        exact this.1
      subst hx
      refine ⟨a, u1, d, ?_⟩
      rw [hs1, ht2]
      simp

/-- C4 counterexample: the reply holds exactly one valid-JSON object,
surrounded by prose, but the prose after the object holds a right brace,
so the greedy span runs past the object, fails to parse, and the result is
NotFound instead of the object value 3. -/
theorem C4_counterexample :
    json_loads "\x7b\"weight\": 3\x7d".data =
      some (Json.obj [("weight".data, Json.num 3)]) ∧
    weightFromJson (Json.obj [("weight".data, Json.num 3)]) = some 3 ∧
    extract_weight_value "ok \x7b\"weight\": 3\x7d done\x7d".data = none :=
  ⟨rfl, rfl, rfl⟩

/-- C4 amended: the interpreter recovers the object segment exactly when
the prose before it holds no left brace and the prose after it holds no
right brace — then the greedy span is the segment and the result is the
weight read off its parse; and a reply with no left-brace right-brace pair
yields NotFound. -/
theorem C4_amended_brace_isolated :
    (∀ pre mid post (j : Json),
      (∀ c ∈ pre, c ≠ lbrace) → (∀ c ∈ post, c ≠ rbrace) →
      json_loads (lbrace :: mid ++ [rbrace]) = some j →
      braceSpan (pre ++ (lbrace :: mid ++ [rbrace]) ++ post) =
        some (lbrace :: mid ++ [rbrace]) ∧
      extract_weight_value (pre ++ (lbrace :: mid ++ [rbrace]) ++ post) =
        weightFromJson j) ∧
    (∀ reply : List Char,
      (¬ ∃ a b c, reply = a ++ lbrace :: b ++ rbrace :: c) →
      extract_weight_value reply = none) := by
  constructor
  · intro pre mid post j hpre hpost hj
    have hspan := braceSpan_decomp pre mid post hpre hpost
    exact ⟨hspan, by simp only [extract_weight_value, hspan, interpretSpan, hj]⟩
  · intro reply hno
    cases hb : braceSpan reply with
    | none => simp only [extract_weight_value, hb]
    | some u => exact absurd (braceSpan_some_pair reply u hb) hno

/-- Witness for the amended C4: a weight object wrapped in brace-free
prose is recovered, and a brace-free reply yields NotFound. -/
theorem C4_amended_brace_isolated_witness :
    extract_weight_value
        ("ok ".data ++ (lbrace :: "\"weight\": 3".data ++ [rbrace]) ++ " done".data) =
      weightFromJson (Json.obj [("weight".data, Json.num 3)]) ∧
    extract_weight_value "no weight here".data = none :=
  ⟨(C4_amended_brace_isolated.1 "ok ".data "\"weight\": 3".data " done".data
      (Json.obj [("weight".data, Json.num 3)]) (by decide) (by decide) rfl).2,
   C4_amended_brace_isolated.2 "no weight here".data
     (by
       rintro ⟨a, b, c, hh⟩
       have hmem : lbrace ∈ "no weight here".data := by
         rw [hh]
         simp
       exact absurd hmem (by decide))⟩


theorem dropWhile_append_of_ne_nil {α : Type} (p : α → Bool) (xs ys : List α)
    (h : xs.dropWhile p ≠ []) :
    (xs ++ ys).dropWhile p = xs.dropWhile p ++ ys := by
  cases hxs : xs.dropWhile p with
  | nil => exact absurd hxs h
  | cons a t =>
    rw [List.dropWhile_append, hxs]
    simp

theorem takeWhile_append_of_ne_nil {α : Type} (p : α → Bool) (xs ys : List α)
    (h : xs.dropWhile p ≠ []) :
    (xs ++ ys).takeWhile p = xs.takeWhile p := by
  rw [List.takeWhile_append]
  rw [if_neg ?_]
  intro hlen
  apply h
  have heq : xs.takeWhile p = xs :=
    (List.takeWhile_prefix p).eq_of_length hlen
  have h2 := List.takeWhile_append_dropWhile p xs
  rw [heq] at h2
  exact List.append_cancel_left (show xs ++ xs.dropWhile p = xs ++ [] by simp [h2])

theorem skipWs_append_cons (xs ext : List Char) (c : Char) (zs : List Char)
    (h : skipWs xs = c :: zs) :
    skipWs (xs ++ ext) = c :: (zs ++ ext) := by
  unfold skipWs at h ⊢
  rw [dropWhile_append_of_ne_nil _ _ _ (by rw [h]; exact List.cons_ne_nil c zs), h]
  rfl

theorem skipWs_append_nil (xs ext : List Char) (h : skipWs xs = []) :
    skipWs (xs ++ ext) = skipWs ext := by
  unfold skipWs at h ⊢
  rw [List.dropWhile_append, h]
  simp

theorem skipWs_ne_nil_of_mem (l : List Char) (c : Char) (hc : c ∈ l)
    (hws : isJsonWs c = false) : skipWs l ≠ [] := by
  unfold skipWs
  intro h
  have h2 := List.dropWhile_eq_nil_iff.mp h c hc
  rw [hws] at h2
  cases h2

theorem parseStringBody_append (xs : List Char) :
    ∀ s r ext, parseStringBody xs = some (s, r) →
      parseStringBody (xs ++ ext) = some (s, r ++ ext) := by
  induction xs using parseStringBody.induct with
  | case1 => intro s r ext h; cases h
  | case2 rest2 =>
    intro s r ext h
    rw [parseStringBody.eq_def] at h
    simp at h
    obtain ⟨hs, hr⟩ := h
    subst hs
    subst hr
    rw [List.cons_append, parseStringBody.eq_def]
    simp
  | case3 hq =>
    intro s r ext h
    rw [parseStringBody.eq_def] at h
    simp at h
  | case4 a b c2 d rest3 ha hb hc hd hvd hvc hvb hva s0 r0 hbody hq ih =>
    intro s r ext h
    rw [parseStringBody.eq_def] at h
    simp [hva, hvb, hvc, hvd, hbody] at h
    obtain ⟨hs, hr⟩ := h
    subst hs
    subst hr
    simp only [List.cons_append]
    rw [parseStringBody.eq_def]
    simp [hva, hvb, hvc, hvd, ih s0 r0 ext hbody]
  | case5 a b c2 d rest3 ha hb hc hd hvd hvc hvb hva hbody hq ih =>
    intro s r ext h
    rw [parseStringBody.eq_def] at h
    simp [hva, hvb, hvc, hvd, hbody] at h
  | case6 a b c2 d rest3 hfail hq =>
    intro s r ext h
    rw [parseStringBody.eq_def] at h
    simp at h
  | case7 rest2 hshape hq =>
    intro s r ext h
    rw [parseStringBody.eq_def] at h
    simp at h
  | case8 e rest2 hne ec s0 r0 hbody hesc hq ih =>
    intro s r ext h
    rw [parseStringBody.eq_def] at h
    simp [hne, hesc, hbody] at h
    obtain ⟨hs, hr⟩ := h
    subst hs
    subst hr
    simp only [List.cons_append]
    rw [parseStringBody.eq_def]
    simp [hne, hesc, ih s0 r0 ext hbody]
  | case9 e rest2 hne hfail hq ih =>
    intro s r ext h
    rw [parseStringBody.eq_def] at h
    simp [hne] at h
  | case10 e rest2 h1 h2 h3 =>
    intro s r ext h
    rw [parseStringBody.eq_def] at h
    simp [h1, h2, h3] at h
  | case11 e rest2 h1 h2 h3 s0 r0 hbody ih =>
    intro s r ext h
    rw [parseStringBody.eq_def] at h
    simp [h1, h2, h3, hbody] at h
    obtain ⟨hs, hr⟩ := h
    subst hs
    subst hr
    simp only [List.cons_append]
    rw [parseStringBody.eq_def]
    simp [h1, h2, h3, ih s0 r0 ext hbody]
  | case12 e rest2 h1 h2 h3 hbody ih =>
    intro s r ext h
    rw [parseStringBody.eq_def] at h
    simp [h1, h2, h3, hbody] at h

theorem parseObjTail_mono (pm pm' : List Char → Option (List (List Char × Json) × List Char))
    (hpm : ∀ cs r, pm cs = some r → pm' cs = some r)
    (rest : List Char) (r : Json × List Char)
    (h : parseObjTail pm rest = some r) : parseObjTail pm' rest = some r := by
  unfold parseObjTail at h ⊢
  cases hs : skipWs rest with
  | nil => rw [hs] at h; cases h
  | cons c2 r2 =>
    rw [hs] at h
    dsimp only at h ⊢
    by_cases hc : c2 = rbrace
    · rw [if_pos hc] at h ⊢; exact h
    · rw [if_neg hc] at h ⊢
      cases hp : pm rest with
      | none => rw [hp] at h; cases h
      | some p => rw [hp] at h; rw [hpm rest p hp]; exact h

theorem parseArrTail_mono (pi pi' : List Char → Option (List Json × List Char))
    (hpi : ∀ cs r, pi cs = some r → pi' cs = some r)
    (rest : List Char) (r : Json × List Char)
    (h : parseArrTail pi rest = some r) : parseArrTail pi' rest = some r := by
  unfold parseArrTail at h ⊢
  cases hs : skipWs rest with
  | nil => rw [hs] at h; cases h
  | cons c2 r2 =>
    rw [hs] at h
    dsimp only at h ⊢
    by_cases hc : c2 = ']'
    · rw [if_pos hc] at h ⊢; exact h
    · rw [if_neg hc] at h ⊢
      cases hp : pi rest with
      | none => rw [hp] at h; cases h
      | some p => rw [hp] at h; rw [hpi rest p hp]; exact h

theorem parseMemberSep_mono (pm pm' : List Char → Option (List (List Char × Json) × List Char))
    (hpm : ∀ cs r, pm cs = some r → pm' cs = some r)
    (key : List Char) (v : Json) (r3 : List Char) (r : List (List Char × Json) × List Char)
    (h : parseMemberSep pm key v r3 = some r) : parseMemberSep pm' key v r3 = some r := by
  unfold parseMemberSep at h ⊢
  cases hs : skipWs r3 with
  | nil => rw [hs] at h; cases h
  | cons c r4 =>
    rw [hs] at h
    dsimp only at h ⊢
    by_cases hc : c = ','
    · rw [if_pos hc] at h ⊢
      cases hp : pm r4 with
      | none => rw [hp] at h; cases h
      | some p => rw [hp] at h; rw [hpm r4 p hp]; exact h
    · rw [if_neg hc] at h ⊢; exact h

theorem parseItemSep_mono (pi pi' : List Char → Option (List Json × List Char))
    (hpi : ∀ cs r, pi cs = some r → pi' cs = some r)
    (v : Json) (r1 : List Char) (r : List Json × List Char)
    (h : parseItemSep pi v r1 = some r) : parseItemSep pi' v r1 = some r := by
  unfold parseItemSep at h ⊢
  cases hs : skipWs r1 with
  | nil => rw [hs] at h; cases h
  | cons c r2 =>
    rw [hs] at h
    dsimp only at h ⊢
    by_cases hc : c = ','
    · rw [if_pos hc] at h ⊢
      cases hp : pi r2 with
      | none => rw [hp] at h; cases h
      | some p => rw [hp] at h; rw [hpi r2 p hp]; exact h
    · rw [if_neg hc] at h ⊢; exact h

theorem parse_mono_succ : ∀ fuel : ℕ,
    (∀ cs r, parseValue fuel cs = some r → parseValue (fuel + 1) cs = some r) ∧
    (∀ cs r, parseMembers fuel cs = some r → parseMembers (fuel + 1) cs = some r) ∧
    (∀ cs r, parseItems fuel cs = some r → parseItems (fuel + 1) cs = some r) := by
  intro fuel
  induction fuel with
  | zero =>
    refine ⟨?_, ?_, ?_⟩ <;> intro cs r h <;>
      exact absurd h (by simp [parseValue, parseMembers, parseItems])
  | succ fuel ih =>
    obtain ⟨ihv, ihm, ihi⟩ := ih
    refine ⟨?_, ?_, ?_⟩
    · intro cs r h
      rw [parseValue] at h ⊢
      cases hs : skipWs cs with
      | nil => rw [hs] at h; cases h
      | cons c rest =>
        rw [hs] at h
        dsimp only at h ⊢
        by_cases h1 : c = lbrace
        · rw [if_pos h1] at h ⊢
          exact parseObjTail_mono _ _ ihm rest r h
        · rw [if_neg h1] at h ⊢
          by_cases h2 : c = '['
          · rw [if_pos h2] at h ⊢
            exact parseArrTail_mono _ _ ihi rest r h
          · rw [if_neg h2] at h ⊢
            exact h
    · intro cs r h
      rw [parseMembers] at h ⊢
      split at h
      · rename_i r0 heq
        split at h
        · rename_i key r1 heq1
          split at h
          · rename_i r2 heq2
            split at h
            · rename_i v r3 heq3
              rw [ihv r2 (v, r3) heq3]
              dsimp only
              exact parseMemberSep_mono _ _ ihm key v r3 r h
            · cases h
          · cases h
        · cases h
      · cases h
    · intro cs r h
      rw [parseItems] at h ⊢
      split at h
      · rename_i v r1 heq
        rw [ihv cs (v, r1) heq]
        dsimp only
        exact parseItemSep_mono _ _ ihi v r1 r h
      · cases h

theorem parseValue_mono (fuel f' : ℕ) (hf : fuel ≤ f') (cs : List Char)
    (r : Json × List Char) (h : parseValue fuel cs = some r) :
    parseValue f' cs = some r := by
  obtain ⟨k, rfl⟩ := Nat.exists_eq_add_of_le hf
  clear hf
  induction k with
  | zero => exact h
  | succ k ih => exact (parse_mono_succ (fuel + k)).1 cs r ih

theorem parseObjTail_append (pm : List Char → Option (List (List Char × Json) × List Char))
    (hpm : ∀ cs kvs rem ext, pm cs = some (kvs, rem) → pm (cs ++ ext) = some (kvs, rem ++ ext))
    (rest ext : List Char) (j : Json) (rem : List Char)
    (h : parseObjTail pm rest = some (j, rem)) :
    parseObjTail pm (rest ++ ext) = some (j, rem ++ ext) := by
  unfold parseObjTail at h ⊢
  split at h
  · rename_i c2 r2 heq
    rw [skipWs_append_cons rest ext c2 r2 heq]
    dsimp only
    by_cases hc : c2 = rbrace
    · rw [if_pos hc] at h ⊢
      cases h
      rfl
    · rw [if_neg hc] at h ⊢
      split at h
      · rename_i kvs r5 heq2
        rw [hpm rest kvs r5 ext heq2]
        cases h
        rfl
      · cases h
  · cases h

theorem parseArrTail_append (pi : List Char → Option (List Json × List Char))
    (hpi : ∀ cs vs rem ext, pi cs = some (vs, rem) → pi (cs ++ ext) = some (vs, rem ++ ext))
    (rest ext : List Char) (j : Json) (rem : List Char)
    (h : parseArrTail pi rest = some (j, rem)) :
    parseArrTail pi (rest ++ ext) = some (j, rem ++ ext) := by
  unfold parseArrTail at h ⊢
  split at h
  · rename_i c2 r2 heq
    rw [skipWs_append_cons rest ext c2 r2 heq]
    dsimp only
    by_cases hc : c2 = ']'
    · rw [if_pos hc] at h ⊢
      cases h
      rfl
    · rw [if_neg hc] at h ⊢
      split at h
      · rename_i vs r5 heq2
        rw [hpi rest vs r5 ext heq2]
        cases h
        rfl
      · cases h
  · cases h

theorem parseStrTail_append (rest ext : List Char) (j : Json) (rem : List Char)
    (h : parseStrTail rest = some (j, rem)) :
    parseStrTail (rest ++ ext) = some (j, rem ++ ext) := by
  unfold parseStrTail at h ⊢
  split at h
  · rename_i s r heq
    rw [parseStringBody_append rest s r ext heq]
    cases h
    rfl
  · cases h

theorem parseNullTail_append (rest ext : List Char) (j : Json) (rem : List Char)
    (h : parseNullTail rest = some (j, rem)) :
    parseNullTail (rest ++ ext) = some (j, rem ++ ext) := by
  unfold parseNullTail at h ⊢
  split at h
  · cases h
    rfl
  · cases h

theorem parseTrueTail_append (rest ext : List Char) (j : Json) (rem : List Char)
    (h : parseTrueTail rest = some (j, rem)) :
    parseTrueTail (rest ++ ext) = some (j, rem ++ ext) := by
  unfold parseTrueTail at h ⊢
  split at h
  · cases h
    rfl
  · cases h

theorem parseFalseTail_append (rest ext : List Char) (j : Json) (rem : List Char)
    (h : parseFalseTail rest = some (j, rem)) :
    parseFalseTail (rest ++ ext) = some (j, rem ++ ext) := by
  unfold parseFalseTail at h ⊢
  split at h
  · cases h
    rfl
  · cases h

theorem parseNumTail_append (c : Char) (rest ext : List Char) (j : Json) (rem : List Char)
    (h : parseNumTail c rest = some (j, rem)) (hne : rem ≠ []) :
    parseNumTail c (rest ++ ext) = some (j, rem ++ ext) := by
  unfold parseNumTail at h ⊢
  split at h
  · rename_i q heq
    cases h
    have hcons : c :: (rest ++ ext) = (c :: rest) ++ ext := rfl
    rw [hcons, takeWhile_append_of_ne_nil _ _ _ hne, heq,
      dropWhile_append_of_ne_nil _ _ _ hne]
  · cases h

theorem parseMemberSep_append (pm : List Char → Option (List (List Char × Json) × List Char))
    (hpm : ∀ cs kvs rem ext, pm cs = some (kvs, rem) → pm (cs ++ ext) = some (kvs, rem ++ ext))
    (key : List Char) (v : Json) (r3 ext : List Char)
    (kvs : List (List Char × Json)) (rem : List Char)
    (h : parseMemberSep pm key v r3 = some (kvs, rem)) :
    parseMemberSep pm key v (r3 ++ ext) = some (kvs, rem ++ ext) := by
  unfold parseMemberSep at h ⊢
  split at h
  · rename_i c r4 heq
    rw [skipWs_append_cons r3 ext c r4 heq]
    dsimp only
    by_cases hc : c = ','
    · rw [if_pos hc] at h ⊢
      split at h
      · rename_i kvs2 r5 heq2
        rw [hpm r4 kvs2 r5 ext heq2]
        cases h
        rfl
      · cases h
    · rw [if_neg hc] at h ⊢
      by_cases hc2 : c = rbrace
      · rw [if_pos hc2] at h ⊢
        cases h
        rfl
      · rw [if_neg hc2] at h
        cases h
  · cases h

theorem parseItemSep_append (pi : List Char → Option (List Json × List Char))
    (hpi : ∀ cs vs rem ext, pi cs = some (vs, rem) → pi (cs ++ ext) = some (vs, rem ++ ext))
    (v : Json) (r1 ext : List Char) (vs : List Json) (rem : List Char)
    (h : parseItemSep pi v r1 = some (vs, rem)) :
    parseItemSep pi v (r1 ++ ext) = some (vs, rem ++ ext) := by
  unfold parseItemSep at h ⊢
  split at h
  · rename_i c r2 heq
    rw [skipWs_append_cons r1 ext c r2 heq]
    dsimp only
    by_cases hc : c = ','
    · rw [if_pos hc] at h ⊢
      split at h
      · rename_i vs2 r3 heq2
        rw [hpi r2 vs2 r3 ext heq2]
        cases h
        rfl
      · cases h
    · rw [if_neg hc] at h ⊢
      by_cases hc2 : c = ']'
      · rw [if_pos hc2] at h ⊢
        cases h
        rfl
      · rw [if_neg hc2] at h
        cases h
  · cases h

theorem parseMemberSep_ne_nil (pm : List Char → Option (List (List Char × Json) × List Char))
    (key : List Char) (v : Json) (r3 : List Char)
    (r : List (List Char × Json) × List Char)
    (h : parseMemberSep pm key v r3 = some r) : r3 ≠ [] := by
  intro hr
  subst hr
  simp [parseMemberSep, skipWs] at h

theorem parseItemSep_ne_nil (pi : List Char → Option (List Json × List Char))
    (v : Json) (r1 : List Char) (r : List Json × List Char)
    (h : parseItemSep pi v r1 = some r) : r1 ≠ [] := by
  intro hr
  subst hr
  simp [parseItemSep, skipWs] at h

theorem parse_ext : ∀ fuel : ℕ,
    (∀ cs v rem ext, parseValue fuel cs = some (v, rem) →
      (rem ≠ [] ∨ ∀ q : ℚ, v ≠ Json.num q) →
      parseValue fuel (cs ++ ext) = some (v, rem ++ ext)) ∧
    (∀ cs kvs rem ext, parseMembers fuel cs = some (kvs, rem) →
      parseMembers fuel (cs ++ ext) = some (kvs, rem ++ ext)) ∧
    (∀ cs vs rem ext, parseItems fuel cs = some (vs, rem) →
      parseItems fuel (cs ++ ext) = some (vs, rem ++ ext)) := by
  intro fuel
  induction fuel with
  | zero =>
    refine ⟨?_, ?_, ?_⟩
    · intro cs v rem ext h hv
      exact absurd h (by simp [parseValue])
    · intro cs kvs rem ext h
      exact absurd h (by simp [parseMembers])
    · intro cs vs rem ext h
      exact absurd h (by simp [parseItems])
  | succ fuel ih =>
    obtain ⟨ihv, ihm, ihi⟩ := ih
    have ihv2 : ∀ cs v rem ext, parseValue fuel cs = some (v, rem) → rem ≠ [] →
        parseValue fuel (cs ++ ext) = some (v, rem ++ ext) :=
      fun cs v rem ext h hne => ihv cs v rem ext h (Or.inl hne)
    refine ⟨?_, ?_, ?_⟩
    · intro cs v rem ext h hv
      rw [parseValue] at h ⊢
      split at h
      · cases h
      · rename_i c rest heq
        rw [skipWs_append_cons cs ext c rest heq]
        try dsimp only
        by_cases h1 : c = lbrace
        · rw [if_pos h1] at h ⊢
          exact parseObjTail_append _ ihm rest ext v rem h
        · rw [if_neg h1] at h ⊢
          by_cases h2 : c = '['
          · rw [if_pos h2] at h ⊢
            exact parseArrTail_append _ ihi rest ext v rem h
          · rw [if_neg h2] at h ⊢
            by_cases h3 : c = '"'
            · rw [if_pos h3] at h ⊢
              exact parseStrTail_append rest ext v rem h
            · rw [if_neg h3] at h ⊢
              by_cases h4 : c = 'n'
              · rw [if_pos h4] at h ⊢
                exact parseNullTail_append rest ext v rem h
              · rw [if_neg h4] at h ⊢
                by_cases h5 : c = 't'
                · rw [if_pos h5] at h ⊢
                  exact parseTrueTail_append rest ext v rem h
                · rw [if_neg h5] at h ⊢
                  by_cases h6 : c = 'f'
                  · rw [if_pos h6] at h ⊢
                    exact parseFalseTail_append rest ext v rem h
                  · rw [if_neg h6] at h ⊢
                    by_cases h7 : c.isDigit || c = '-'
                    · rw [if_pos h7] at h ⊢
                      have hnum : ∃ q : ℚ, v = Json.num q := by
                        have h' := h
                        unfold parseNumTail at h'
                        split at h'
                        · rename_i q heq2
                          cases h'
                          exact ⟨q, rfl⟩
                        · cases h'
                      have hne : rem ≠ [] := by
                        rcases hv with hne | hnq
                        · exact hne
                        · obtain ⟨q, hq⟩ := hnum
                          exact absurd hq (by intro hh; exact hnq q hh)
                      exact parseNumTail_append c rest ext v rem h hne
                    · rw [if_neg h7] at h
                      cases h
    · intro cs kvs rem ext h
      rw [parseMembers] at h ⊢
      split at h
      · rename_i r0 heq
        rw [skipWs_append_cons cs ext '"' r0 heq]
        simp only
        split at h
        · rename_i key r1 heq1
          rw [parseStringBody_append r0 key r1 ext heq1]
          try dsimp only
          split at h
          · rename_i r2 heq2
            rw [skipWs_append_cons r1 ext ':' r2 heq2]
            simp only
            split at h
            · rename_i v r3 heq3
              have hne : r3 ≠ [] := parseMemberSep_ne_nil _ _ _ _ _ h
              rw [ihv2 r2 v r3 ext heq3 hne]
              try dsimp only
              exact parseMemberSep_append _ ihm key v r3 ext kvs rem h
            · cases h
          · cases h
        · cases h
      · cases h
    · intro cs vs rem ext h
      rw [parseItems] at h ⊢
      split at h
      · rename_i v r1 heq
        have hne : r1 ≠ [] := parseItemSep_ne_nil _ _ _ _ h
        rw [ihv2 cs v r1 ext heq hne]
        try dsimp only
        exact parseItemSep_append _ ihi v r1 ext vs rem h
      · cases h

theorem json_loads_some_inv (cs : List Char) (j : Json) (h : json_loads cs = some j) :
    ∃ rest, parseValue (2 * cs.length + 2) cs = some (j, rest) ∧ skipWs rest = [] := by
  unfold json_loads at h
  split at h
  · rename_i v rest heq
    split at h
    · cases h
      exact ⟨rest, heq, by assumption⟩
    · cases h
  · cases h

/-- A parse that consumed a whole JSON object fails on that text followed
by any extra non-blank data: the scanner stops at the closing brace of the
object and the loader then rejects the leftover, the Python Extra data
error. -/
theorem json_loads_extra_data (obj1 ext : List Char) (kvs : List (List Char × Json))
    (h : json_loads obj1 = some (Json.obj kvs))
    (hext : ∃ c ∈ ext, isJsonWs c = false) :
    json_loads (obj1 ++ ext) = none := by
  obtain ⟨rest, hpv, hws⟩ := json_loads_some_inv obj1 _ h
  have hmono : parseValue (2 * (obj1 ++ ext).length + 2) obj1 = some (Json.obj kvs, rest) :=
    parseValue_mono _ _ (by simp) obj1 _ hpv
  have hext2 : parseValue (2 * (obj1 ++ ext).length + 2) (obj1 ++ ext) =
      some (Json.obj kvs, rest ++ ext) :=
    (parse_ext _).1 obj1 _ rest ext hmono (Or.inr (fun q hq => by cases hq))
  have hne : skipWs (rest ++ ext) ≠ [] := by
    rw [skipWs_append_nil rest ext hws]
    obtain ⟨c, hc, hcws⟩ := hext
    exact skipWs_ne_nil_of_mem ext c hc hcws
  unfold json_loads
  rw [hext2]
  dsimp only
  exact if_neg hne

/-- C10: a reply made of brace-free prose, a first well-formed JSON object
(one starting at a left brace), prose, a second well-formed JSON object
(one ending at a right brace), and prose free of right braces: the greedy
span runs from the first left brace of the first object to the last right
brace of the last object, that span is not valid JSON, and the weight
result is NotFound rather than a value from either object. -/
theorem C10_two_disjoint_objects (pre t1 mid t2 post : List Char)
    (kvs1 kvs2 : List (List Char × Json))
    (hpre : ∀ c ∈ pre, c ≠ lbrace) (hpost : ∀ c ∈ post, c ≠ rbrace)
    (h1 : json_loads (lbrace :: t1) = some (Json.obj kvs1))
    (h2 : json_loads (t2 ++ [rbrace]) = some (Json.obj kvs2)) :
    braceSpan (pre ++ (lbrace :: t1) ++ mid ++ (t2 ++ [rbrace]) ++ post) =
      some ((lbrace :: t1) ++ mid ++ (t2 ++ [rbrace])) ∧
    json_loads ((lbrace :: t1) ++ mid ++ (t2 ++ [rbrace])) = none ∧
    extract_weight_value (pre ++ (lbrace :: t1) ++ mid ++ (t2 ++ [rbrace]) ++ post) = none := by
  have hspan0 := braceSpan_decomp pre (t1 ++ mid ++ t2) post hpre hpost
  have hshape : pre ++ (lbrace :: (t1 ++ mid ++ t2) ++ [rbrace]) ++ post =
      pre ++ (lbrace :: t1) ++ mid ++ (t2 ++ [rbrace]) ++ post := by simp
  have hshape2 : (lbrace :: (t1 ++ mid ++ t2) ++ [rbrace] : List Char) =
      (lbrace :: t1) ++ mid ++ (t2 ++ [rbrace]) := by simp
  rw [hshape, hshape2] at hspan0
  have hfail : json_loads ((lbrace :: t1) ++ (mid ++ (t2 ++ [rbrace]))) = none := by
    apply json_loads_extra_data _ _ kvs1 h1
    exact ⟨rbrace, by simp, by decide⟩
  have hfail2 : json_loads ((lbrace :: t1) ++ mid ++ (t2 ++ [rbrace])) = none := by
    rw [List.append_assoc]
    exact hfail
  refine ⟨hspan0, hfail2, ?_⟩
  simp only [extract_weight_value, hspan0, interpretSpan, hfail2]

/-- Witness for C10 at the reply of two empty objects separated by a
blank. -/
theorem C10_two_disjoint_objects_witness :
    braceSpan (([] : List Char) ++ (lbrace :: [rbrace]) ++ [' '] ++ ([lbrace] ++ [rbrace]) ++ []) =
      some ((lbrace :: [rbrace]) ++ [' '] ++ ([lbrace] ++ [rbrace])) ∧
    json_loads ((lbrace :: [rbrace]) ++ [' '] ++ ([lbrace] ++ [rbrace])) = none ∧
    extract_weight_value
        (([] : List Char) ++ (lbrace :: [rbrace]) ++ [' '] ++ ([lbrace] ++ [rbrace]) ++ []) = none :=
  C10_two_disjoint_objects [] [rbrace] [' '] [lbrace] [] [] []
    (by simp) (by simp) rfl rfl
